import Mathlib

/-!
Verification of the cargo-customs policy engine (src/main.rs).

The development shallowly embeds the data model and the pure logic of the
program: the configuration types (CustomsFile, Regulation, Jobs, Job),
the matrix expansion (Regulation.expand), the argument translation
(buildTargetArg, checkArgs), the scope resolution
(find_current_package, packages_to_inspect), the layered policy
collection and merge (customsPaths, effectiveDefault, mergeRegulation,
applyDefault, load_customs) and the sequential fail-fast run loop
(runChecks, runRegs, runPackages, runCustoms).

Filesystem reads are modelled by an explicit function from paths to
optional file contents; paths are lists of components; the external
build tool is modelled by an exit-status oracle on execution units; the
host platform triple returned by the toolchain is an explicit parameter.
-/

namespace CargoCustoms

/-- Kernel-reducible string prefix test, the model of str::starts_with
    at line 164 and of str::strip_prefix at line 377 of main.rs. -/
def strIsPrefixOf (p s : String) : Bool := p.data.isPrefixOf s.data

/-- Kernel-reducible string drop, the model of the remainder kept by
    str::strip_prefix. -/
def strDrop (s : String) (n : Nat) : String := ⟨s.data.drop n⟩

/-- Extra arguments appended to the invocation for one job
    (struct JobParameters, main.rs lines 214-219). -/
structure JobParameters where
  args : List String
deriving DecidableEq

/-- A resolved job: name plus argument list (struct Job, lines 221-225). -/
structure Job where
  name : String
  args : List String
deriving DecidableEq

/-- The two shapes of a jobs declaration (enum Jobs, lines 201-206).
    The detailed form is a HashMap in the source; it is modelled as an
    association list in map-native iteration order. -/
inductive Jobs where
  | short (items : List String)
  | detailed (entries : List (String × JobParameters))
deriving DecidableEq

/-- Jobs::into_jobs (lines 243-253): normalize either shape into a
    list of Job values. -/
def Jobs.into_jobs : Jobs → List Job
  | .short items => items.map (fun n => ⟨n, []⟩)
  | .detailed entries => entries.map (fun e => ⟨e.1, e.2.args⟩)

/-- A declarative policy fragment (struct Regulation, lines 184-199).
    The source struct has exactly these three fields; it has no
    feature-sets field. -/
structure Regulation where
  platform_targets : List String
  build_targets : List String
  jobs : Jobs
deriving DecidableEq

/-- The parsed contents of one Customs.toml (struct CustomsFile,
    lines 175-182). -/
structure CustomsFile where
  default : Option Regulation
  regulation : List Regulation
deriving DecidableEq

/-- One point of the expanded matrix (struct RegulationCheck,
    lines 359-364). -/
structure RegulationCheck where
  platform_target : String
  build_target : String
  job : Job
deriving DecidableEq

/-- itertools cartesian_product on two lists: left factor outermost. -/
def cartesianProduct (xs : List α) (ys : List β) : List (α × β) :=
  xs.flatMap (fun x => ys.map (fun y => (x, y)))

/-- Regulation::expand (lines 333-356).  The panic for an "all"
    build-target combined with other entries is modelled as none. -/
def Regulation.expand (r : Regulation) : Option (List RegulationCheck) :=
  if r.build_targets.any (fun e => decide (e = "all")) &&
      !(decide (r.build_targets.length = 1)) then
    none
  else
    some (((cartesianProduct (cartesianProduct r.platform_targets r.build_targets)
        r.jobs.into_jobs).map (fun pbj => ⟨pbj.1.1, pbj.1.2, pbj.2⟩)))

/-- The build-target translation done at the start of
    RegulationCheck::check (lines 368-383).  The panic on an
    unrecognized token is modelled as none. -/
def buildTargetArg (bt : String) : Option String :=
  if bt = "lib" then some "--lib"
  else if bt = "bins" then some "--bins"
  else if bt = "tests" then some "--tests"
  else if bt = "all" then some "--all-targets"
  else if strIsPrefixOf "bin:" bt then some ("--bin=" ++ strDrop bt 4)
  else none

/-- The full argument vector built by RegulationCheck::check
    (lines 384-404): job name, then the target flag (with the
    designator "host" replaced by the toolchain host triple, lines
    384-388 and 416-420), then the build-target flag, then a "--"
    separator and the job arguments when the latter are non-empty. -/
def checkArgs (hostTriple : String) (rc : RegulationCheck) : Option (List String) :=
  match buildTargetArg rc.build_target with
  | none => none
  | some bta =>
    let platform_target :=
      if rc.platform_target = "host" then hostTriple else rc.platform_target
    some ([rc.job.name, "--target=" ++ platform_target, bta] ++
      (if rc.job.args.isEmpty then [] else ["--"] ++ rc.job.args))

/-- One addressable package; manifest_path is the path of its
    Cargo.toml as a list of components. -/
structure Package where
  id : String
  manifest_path : List String
deriving DecidableEq

/-- The slice of cargo metadata the program reads. -/
structure Metadata where
  packages : List Package
  workspace_members : List String
  workspace_root : List String
deriving DecidableEq

/-- Rendering of an absolute component path as the string cargo
    metadata hands out (used by the starts_with comparison). -/
def pathString (comps : List String) : String :=
  "/" ++ String.intercalate "/" comps

/-- The directory holding the manifest of a package, as a string
    (p.manifest_path.parent() at lines 159-163). -/
def packageDir (p : Package) : String :=
  pathString p.manifest_path.dropLast

/-- The score given to one package by find_current_package
    (lines 158-169): length of its directory when that directory is a
    string prefix of the working directory, 0 otherwise. -/
def matchLen (cwd : String) (p : Package) : Nat :=
  if strIsPrefixOf (packageDir p) cwd then (packageDir p).length else 0

/-- Metadata::workspace_packages: the packages whose id is a
    workspace member. -/
def Metadata.workspace_packages (md : Metadata) : List Package :=
  md.packages.filter (fun p => md.workspace_members.any (fun i => decide (i = p.id)))

/-- One step of Iterator::max_by: on a tie the later element wins. -/
def maxByStep : Option (Package × Nat) → (Package × Nat) → Option (Package × Nat)
  | none, x => some x
  | some m, x => if m.2 > x.2 then some m else some x

/-- find_current_package (lines 151-173): among workspace members,
    the package whose directory is the longest positive-length string
    prefix of the working directory. -/
def find_current_package (md : Metadata) (cwd : String) : Option Package :=
  let scored := (md.packages.filter
      (fun p => md.workspace_members.any (fun i => decide (i = p.id)))).map
    (fun p => (p, matchLen cwd p))
  match scored.foldl maxByStep none with
  | none => none
  | some pl => if 0 < pl.2 then some pl.1 else none

/-- packages_to_inspect (lines 120-138). -/
def packages_to_inspect (md : Metadata) (cwd : String) (workspace : Bool) :
    List Package :=
  let current := find_current_package md cwd
  if workspace then md.workspace_packages
  else
    match current with
    | some p => [p]
    | none => md.workspace_packages

/-- The file name constant CUSTOMS_FILE_NAME (line 261). -/
def customsFileName : String := "Customs.toml"

/-- All ancestors of a component path, the path itself first, ending
    with the root [] (Path::ancestors on an absolute path). -/
def ancestorsList : List String → List (List String)
  | [] => [[]]
  | a :: rest => (a :: rest) :: ancestorsList (a :: rest).dropLast
termination_by l => l.length
decreasing_by simp [List.length_dropLast]

/-- The candidate Customs.toml paths collected by load_customs
    (lines 280-287): for every ancestor of the manifest path strictly
    above-or-at the manifest and strictly before the workspace root,
    the file named Customs.toml in the parent directory of that
    ancestor.  The resulting list is in unit-to-root order; the source
    reverses it before merging. -/
def customsPaths (manifest_path workspace_root : List String) : List (List String) :=
  ((ancestorsList manifest_path).takeWhile (fun e => decide (e ≠ workspace_root))).map
    (fun e => e.dropLast ++ [customsFileName])

/-- The effective default (lines 304-307): the last non-absent default
    among the collected files in root-to-unit order. -/
def effectiveDefault (files : List CustomsFile) : Option Regulation :=
  (files.filterMap (fun f => f.default)).getLast?

/-- The per-regulation defaulting step (lines 310-325): each empty
    field is replaced by the corresponding field of the default. -/
def mergeRegulation (d : Regulation) (r : Regulation) : Regulation :=
  { platform_targets :=
      if r.platform_targets.isEmpty then d.platform_targets else r.platform_targets
    build_targets :=
      if r.build_targets.isEmpty then d.build_targets else r.build_targets
    jobs :=
      if r.jobs.into_jobs.isEmpty then d.jobs else r.jobs }

/-- Application of the effective default to every regulation of the
    unit file (the for-loop at lines 310-325). -/
def applyDefault : Option Regulation → CustomsFile → CustomsFile
  | none, f => f
  | some d, f => { f with regulation := f.regulation.map (mergeRegulation d) }

/-- load_customs (lines 260-330) over an explicit filesystem given as a
    function from paths to optional parsed file contents.  Returns none
    both when the unit directory has no Customs.toml (the early return
    at line 272) and in the degenerate case where no file at all was
    collected (the unwrap at line 302 would panic). -/
def load_customs (fsys : List String → Option CustomsFile)
    (manifest_path workspace_root : List String) : Option CustomsFile :=
  match fsys (manifest_path.dropLast ++ [customsFileName]) with
  | none => none
  | some _ =>
    let files := ((customsPaths manifest_path workspace_root).filterMap fsys).reverse
    match files.getLast? with
    | none => none
    | some crate_customs => some (applyDefault (effectiveDefault files) crate_customs)

/-- The error values surfaced by the run loop.  customsMissing is
    Error::CustomsMissing (line 14); invalidBuildTarget models the
    panic at line 380; expandPanic models the panic at line 341;
    checkFailed is the bail at line 409 after a non-zero exit status. -/
inductive RunErr where
  | customsMissing
  | invalidBuildTarget
  | expandPanic
  | checkFailed
deriving DecidableEq

/-- Sequential execution of the checks of one regulation (the inner
    iteration of lines 112-114 together with RegulationCheck::check,
    lines 367-413): the external process is modelled by the exit-status
    oracle exec; the returned trace lists the units whose process was
    spawned, and an error stops everything.  The build-target
    translation panic fires before any process is spawned. -/
def runChecks (exec : RegulationCheck → Bool) :
    List RegulationCheck → List RegulationCheck × Option RunErr
  | [] => ([], none)
  | c :: rest =>
    match buildTargetArg c.build_target with
    | none => ([], some .invalidBuildTarget)
    | some _ =>
      if exec c then
        let next := runChecks exec rest
        (c :: next.1, next.2)
      else ([c], some .checkFailed)

/-- Lazy expansion and execution of the regulations of one unit
    (the flat_map iteration at line 112): the expansion of a later
    regulation happens only after all checks of the earlier ones
    succeeded. -/
def runRegs (exec : RegulationCheck → Bool) :
    List Regulation → List RegulationCheck × Option RunErr
  | [] => ([], none)
  | r :: rest =>
    match r.expand with
    | none => ([], some .expandPanic)
    | some checks =>
      match runChecks exec checks with
      | (t, some e) => (t, some e)
      | (t, none) =>
        let next := runRegs exec rest
        (t ++ next.1, next.2)

/-- The package loop of run (lines 85-115) over the already loaded
    customs of each package: a package without customs is a hard error
    when the invocation targeted exactly one package and was not
    workspace-wide, and is skipped otherwise. -/
def runPackages (singleTargeted : Bool) (exec : RegulationCheck → Bool) :
    List (Option CustomsFile) → List RegulationCheck × Option RunErr
  | [] => ([], none)
  | none :: rest =>
    if singleTargeted then ([], some .customsMissing)
    else runPackages singleTargeted exec rest
  | some f :: rest =>
    match runRegs exec f.regulation with
    | (t, some e) => (t, some e)
    | (t, none) =>
      let next := runPackages singleTargeted exec rest
      (t ++ next.1, next.2)

/-- run (lines 74-118) after scope resolution and loading: the
    singleTargeted condition is the test at line 94. -/
def runCustoms (workspace : Bool) (exec : RegulationCheck → Bool)
    (pkgs : List (Option CustomsFile)) : List RegulationCheck × Option RunErr :=
  runPackages (decide (pkgs.length = 1) && !workspace) exec pkgs

/-- Decidable validity of one unit file for the run loop: every
    regulation expands without panicking and every resulting execution
    unit carries a recognized build target. -/
def regsValid (f : CustomsFile) : Prop :=
  ∀ r ∈ f.regulation, (r.expand).isSome = true ∧
    ∀ c ∈ (r.expand).getD [], (buildTargetArg c.build_target).isSome = true

instance (f : CustomsFile) : Decidable (regsValid f) := by
  unfold regsValid
  infer_instance

/-- The full execution-unit sequence of a list of unit files, in
    execution order. -/
def unitsOf (files : List CustomsFile) : List RegulationCheck :=
  files.flatMap (fun f => f.regulation.flatMap (fun r => (r.expand).getD []))

/-- Modelled from the spec (section 4.2): the collection the spec
    describes, policy files of the unit directory and of each ancestor
    directory strictly below the workspace root, in root-to-unit order.
    Written only to be compared against customsPaths, which is
    translated from the source. -/
def specCustomsPathsBelowRoot (root relDirs : List String) : List (List String) :=
  (List.range relDirs.length).map
    (fun i => root ++ relDirs.take (i + 1) ++ [customsFileName])

/-! ## General lemmas about the expansion -/

theorem cartesianProduct_eq_product (xs : List α) (ys : List β) :
    cartesianProduct xs ys = xs ×ˢ ys := rfl

theorem expandList_eq_flatMap (P B : List String) (J : List Job) :
    ((cartesianProduct (cartesianProduct P B) J).map
      (fun pbj => (⟨pbj.1.1, pbj.1.2, pbj.2⟩ : RegulationCheck))) =
    P.flatMap (fun p => B.flatMap (fun b => J.map (fun j => ⟨p, b, j⟩))) := by
  induction P with
  | nil => rfl
  | cons x xs ih =>
    simp only [cartesianProduct, List.flatMap_cons, List.map_append, List.flatMap_append,
      List.map_map, ← ih]
    simp only [cartesianProduct, List.map_flatMap, List.flatMap_map, List.map_map]
    rfl

theorem expandList_length (P B : List String) (J : List Job) :
    ((cartesianProduct (cartesianProduct P B) J).map
      (fun pbj => (⟨pbj.1.1, pbj.1.2, pbj.2⟩ : RegulationCheck))).length =
    P.length * B.length * J.length := by
  rw [List.length_map, cartesianProduct_eq_product, cartesianProduct_eq_product,
    List.length_product, List.length_product]

theorem expandList_mem (P B : List String) (J : List Job) (p b : String) (j : Job) :
    ((⟨p, b, j⟩ : RegulationCheck) ∈ (cartesianProduct (cartesianProduct P B) J).map
      (fun pbj => (⟨pbj.1.1, pbj.1.2, pbj.2⟩ : RegulationCheck))) ↔
    p ∈ P ∧ b ∈ B ∧ j ∈ J := by
  rw [cartesianProduct_eq_product, cartesianProduct_eq_product]
  simp only [List.mem_map, Prod.exists, RegulationCheck.mk.injEq]
  constructor
  · rintro ⟨a, c, d, hmem, hp, hb, hj⟩
    subst hp; subst hb; subst hj
    rcases List.mem_product.mp hmem with ⟨hab, hj⟩
    rcases List.mem_product.mp hab with ⟨hp, hb⟩
    exact ⟨hp, hb, hj⟩
  · rintro ⟨hp, hb, hj⟩
    exact ⟨p, b, j, List.mem_product.mpr ⟨List.mem_product.mpr ⟨hp, hb⟩, hj⟩, rfl, rfl, rfl⟩

theorem expandList_nodup (P B : List String) (J : List Job)
    (hP : P.Nodup) (hB : B.Nodup) (hJ : J.Nodup) :
    ((cartesianProduct (cartesianProduct P B) J).map
      (fun pbj => (⟨pbj.1.1, pbj.1.2, pbj.2⟩ : RegulationCheck))).Nodup := by
  rw [cartesianProduct_eq_product, cartesianProduct_eq_product]
  apply List.Nodup.map
  · rintro ⟨⟨p1, b1⟩, j1⟩ ⟨⟨p2, b2⟩, j2⟩ h
    simp only [RegulationCheck.mk.injEq] at h
    obtain ⟨h1, h2, h3⟩ := h
    subst h1; subst h2; subst h3; rfl
  · exact List.Nodup.product (List.Nodup.product hP hB) hJ

/-! ## Claim C1 -/

/-- Claim C1 (amended): for every Regulation whose build-targets pass
    the expansion guard (the designator "all" is not combined with
    other entries), expansion produces exactly |P| * |B| * |J|
    ExecutionUnits, one per (platform-target, build-target, job) tuple
    drawn from the three sequences — the Regulation of the source has
    no feature-sets field, so there is no fourth factor — with none
    dropped, pairwise distinct whenever the three input sequences are
    duplicate-free, iterating platform-target outermost, then
    build-target, then job innermost. -/
theorem c1_expand_full_matrix (r : Regulation)
    (hvalid : (r.build_targets.any (fun e => decide (e = "all")) &&
      !(decide (r.build_targets.length = 1))) = false) :
    ∃ L, r.expand = some L ∧
      L = r.platform_targets.flatMap (fun p =>
            r.build_targets.flatMap (fun b =>
              r.jobs.into_jobs.map (fun j => ⟨p, b, j⟩))) ∧
      L.length = r.platform_targets.length * r.build_targets.length *
        r.jobs.into_jobs.length ∧
      (∀ p b j, (⟨p, b, j⟩ : RegulationCheck) ∈ L ↔
        p ∈ r.platform_targets ∧ b ∈ r.build_targets ∧ j ∈ r.jobs.into_jobs) ∧
      (r.platform_targets.Nodup → r.build_targets.Nodup → r.jobs.into_jobs.Nodup →
        L.Nodup) := by
  refine ⟨(cartesianProduct (cartesianProduct r.platform_targets r.build_targets)
      r.jobs.into_jobs).map (fun pbj => ⟨pbj.1.1, pbj.1.2, pbj.2⟩), ?_, ?_, ?_, ?_, ?_⟩
  · unfold Regulation.expand
    rw [hvalid]
    rfl
  · exact expandList_eq_flatMap _ _ _
  · exact expandList_length _ _ _
  · exact fun p b j => expandList_mem _ _ _ p b j
  · exact fun hP hB hJ => expandList_nodup _ _ _ hP hB hJ

/-- Witness for C1: on the Regulation with platform-targets
    ["p1", "p2"], build-targets ["b1"] and jobs ["j1"] the guard is
    passed and exactly 2 * 1 * 1 execution units are produced. -/
theorem c1_witness :
    ((Regulation.expand ⟨["p1", "p2"], ["b1"], Jobs.short ["j1"]⟩).getD []).length = 2 := by
  obtain ⟨L, hL, _, hlen, _, _⟩ :=
    c1_expand_full_matrix ⟨["p1", "p2"], ["b1"], Jobs.short ["j1"]⟩ (by decide)
  rw [hL]
  simpa using hlen

/-- Counterexample to C1 as stated: expansion does not always produce
    the full matrix of distinct units.  On build-targets
    ["all", "lib"] the source panics and produces no ExecutionUnit at
    all, and on the duplicated platform-target list ["x", "x"] the
    produced units are not pairwise distinct. -/
theorem c1_counterexample :
    Regulation.expand ⟨["host"], ["all", "lib"], Jobs.short ["test"]⟩ = none ∧
    ¬ ((Regulation.expand ⟨["x", "x"], ["lib"], Jobs.short ["t"]⟩).getD []).Nodup := by
  exact ⟨by decide, by decide⟩

/-! ## Claim C5 -/

/-- Claim C5 (amended): the build-target translation recognizes
    exactly the group keywords lib, bins and tests, which map to a
    double-dash flag of the same name, the designator all, which maps
    to --all-targets, and the prefixed form bin:<name>, which maps to
    --bin=<name>; every other value — including the keywords examples,
    benches and all-targets and the prefixed forms example:<name>,
    test:<name> and bench:<name> — is a fatal configuration error. -/
theorem c5_build_target_translation :
    buildTargetArg "lib" = some "--lib" ∧
    buildTargetArg "bins" = some "--bins" ∧
    buildTargetArg "tests" = some "--tests" ∧
    buildTargetArg "all" = some "--all-targets" ∧
    (∀ bt, strIsPrefixOf "bin:" bt = true →
      buildTargetArg bt = some ("--bin=" ++ strDrop bt 4)) ∧
    (∀ bt, bt ≠ "lib" → bt ≠ "bins" → bt ≠ "tests" → bt ≠ "all" →
      strIsPrefixOf "bin:" bt = false → buildTargetArg bt = none) := by
  refine ⟨by decide, by decide, by decide, by decide, ?_, ?_⟩
  · intro bt h
    have h1 : bt ≠ "lib" := by rintro rfl; exact absurd h (by decide)
    have h2 : bt ≠ "bins" := by rintro rfl; exact absurd h (by decide)
    have h3 : bt ≠ "tests" := by rintro rfl; exact absurd h (by decide)
    have h4 : bt ≠ "all" := by rintro rfl; exact absurd h (by decide)
    simp [buildTargetArg, h1, h2, h3, h4, h]
  · intro bt h1 h2 h3 h4 h5
    simp [buildTargetArg, h1, h2, h3, h4, h5]

/-- Witness for C5: the prefixed form bin:foo maps to --bin=foo and
    the keyword examples is rejected. -/
theorem c5_witness :
    buildTargetArg "bin:foo" = some ("--bin=" ++ strDrop "bin:foo" 4) ∧
    buildTargetArg "examples" = none :=
  ⟨c5_build_target_translation.2.2.2.2.1 "bin:foo" (by decide),
   c5_build_target_translation.2.2.2.2.2 "examples" (by decide) (by decide)
     (by decide) (by decide) (by decide)⟩

/-- Counterexample to C5 as stated: the group keyword examples does
    not map to the flag --examples; the source treats it as an invalid
    build target and panics (the examples, benches and all-targets
    keywords and the example:, test: and bench: prefixes are only
    TODO comments in RegulationCheck::check). -/
theorem c5_counterexample :
    buildTargetArg "examples" = none ∧
    buildTargetArg "examples" ≠ some "--examples" :=
  ⟨by decide, by decide⟩

/-! ## Claim C6 -/

/-- Claim C6 (amended): the target flag is never omitted.  For every
    ExecutionUnit whose build-target is recognized, the argument
    vector is exactly job name, then --target=<v>, then the
    build-target flag, then the trailing job arguments — where v is
    the toolchain host triple when the platform-target is the
    designator host, and the platform-target value itself otherwise. -/
theorem c6_platform_target_translation (hostTriple : String) (rc : RegulationCheck)
    (bta : String) (h : buildTargetArg rc.build_target = some bta) :
    checkArgs hostTriple rc =
      some ([rc.job.name,
        "--target=" ++ (if rc.platform_target = "host" then hostTriple
          else rc.platform_target), bta] ++
        (if rc.job.args.isEmpty then [] else ["--"] ++ rc.job.args)) := by
  simp [checkArgs, h]

/-- Witness for C6: for the platform-target host the emitted target
    flag carries the toolchain host triple. -/
theorem c6_witness :
    checkArgs "xh64" ⟨"host", "lib", ⟨"check", []⟩⟩ =
      some ["check", "--target=" ++ "xh64", "--lib"] := by
  simpa using
    c6_platform_target_translation "xh64" ⟨"host", "lib", ⟨"check", []⟩⟩ "--lib" (by decide)

/-- Counterexample to C6 as stated: for the platform-target host a
    target flag is emitted after all — the source substitutes the
    toolchain host triple and always passes --target=. -/
theorem c6_counterexample :
    ((checkArgs "hosttriple" ⟨"host", "lib", ⟨"test", []⟩⟩).getD []).any
      (fun a => strIsPrefixOf "--target=" a) = true := by
  decide

/-! ## Claim C7 -/

/-- Claim C7 (amended): the build-target argument is never omitted:
    for every ExecutionUnit whose build-target is recognized — also
    when the job name is the formatting job fmt — the translated
    build-target flag appears in the argument vector, at index 2. -/
theorem c7_build_target_never_omitted (hostTriple : String) (rc : RegulationCheck)
    (bta : String) (h : buildTargetArg rc.build_target = some bta) :
    ∃ args, checkArgs hostTriple rc = some args ∧ bta ∈ args ∧ args[2]? = some bta := by
  refine ⟨[rc.job.name,
      "--target=" ++ (if rc.platform_target = "host" then hostTriple
        else rc.platform_target), bta] ++
      (if rc.job.args.isEmpty then [] else ["--"] ++ rc.job.args), ?_, ?_, ?_⟩
  · simp [checkArgs, h]
  · exact List.mem_append_left _ (by simp)
  · rw [List.getElem?_append]
    simp

/-- Witness for C7: for the formatting job fmt with build-target lib
    the flag --lib is still emitted, at index 2. -/
theorem c7_witness :
    ∃ args, checkArgs "xh64" ⟨"x86", "lib", ⟨"fmt", []⟩⟩ = some args ∧
      "--lib" ∈ args ∧ args[2]? = some "--lib" :=
  c7_build_target_never_omitted "xh64" ⟨"x86", "lib", ⟨"fmt", []⟩⟩ "--lib" (by decide)

/-- Counterexample to C7 as stated: for the job named fmt the
    build-target argument is not omitted; RegulationCheck::check has
    no special case for any job name. -/
theorem c7_counterexample :
    "--lib" ∈ (checkArgs "xh64" ⟨"x86", "lib", ⟨"fmt", []⟩⟩).getD [] := by
  decide

/-! ## Lemmas about the defaulting merge -/

theorem mergeRegulation_idem (d r : Regulation) :
    mergeRegulation d (mergeRegulation d r) = mergeRegulation d r := by
  simp only [mergeRegulation]
  split_ifs <;> simp_all

theorem applyDefault_idem (od : Option Regulation) (f : CustomsFile) :
    applyDefault od (applyDefault od f) = applyDefault od f := by
  cases od with
  | none => rfl
  | some d =>
    simp only [applyDefault, List.map_map]
    congr 1
    apply List.map_congr_left
    intro r _
    exact mergeRegulation_idem d r

theorem effectiveDefault_nearest (pre post : List CustomsFile) (f : CustomsFile)
    (dreg : Regulation) (hf : f.default = some dreg)
    (hpost : ∀ g ∈ post, g.default = none) :
    effectiveDefault (pre ++ f :: post) = some dreg := by
  unfold effectiveDefault
  rw [List.filterMap_append, List.filterMap_cons, hf]
  have hnil : post.filterMap (fun g => g.default) = [] := by
    rw [List.filterMap_eq_nil_iff]
    exact hpost
  rw [hnil]
  exact List.getLast?_concat _

/-! ## Claim C2 -/

/-- Claim C2: merging is idempotent and field-local.  For every
    Regulation of the unit file and every field, a non-empty field is
    never altered whatever the default is; an empty field is replaced
    exactly by the corresponding field of the default — which
    effectiveDefault computes as the nearest (last in root-to-unit
    order) non-absent default of the collected files; and applying the
    merge a second time changes nothing, both per regulation and on
    the whole file. -/
theorem c2_merge_idempotent_field_local :
    (∀ d r : Regulation,
      (r.platform_targets ≠ [] →
        (mergeRegulation d r).platform_targets = r.platform_targets) ∧
      (r.build_targets ≠ [] →
        (mergeRegulation d r).build_targets = r.build_targets) ∧
      (r.jobs.into_jobs ≠ [] → (mergeRegulation d r).jobs = r.jobs) ∧
      (r.platform_targets = [] →
        (mergeRegulation d r).platform_targets = d.platform_targets) ∧
      (r.build_targets = [] →
        (mergeRegulation d r).build_targets = d.build_targets) ∧
      (r.jobs.into_jobs = [] → (mergeRegulation d r).jobs = d.jobs)) ∧
    (∀ d r, mergeRegulation d (mergeRegulation d r) = mergeRegulation d r) ∧
    (∀ od f, applyDefault od (applyDefault od f) = applyDefault od f) ∧
    (∀ (pre post : List CustomsFile) (f : CustomsFile) (dreg : Regulation),
      f.default = some dreg → (∀ g ∈ post, g.default = none) →
      effectiveDefault (pre ++ f :: post) = some dreg) := by
  refine ⟨?_, mergeRegulation_idem, applyDefault_idem, effectiveDefault_nearest⟩
  intro d r
  refine ⟨?_, ?_, ?_, ?_, ?_, ?_⟩ <;> intro h <;>
    simp_all [mergeRegulation, List.isEmpty_iff]

/-- Witness for C2: on a regulation with a populated platform-target
    list and empty build-targets and jobs, the populated field is left
    untouched and the empty ones are filled from the default; the
    effective default of a root-to-unit list is its nearest non-absent
    default entry. -/
theorem c2_witness :
    (mergeRegulation ⟨["dp"], ["db"], Jobs.short ["dj"]⟩
      ⟨["rp"], [], Jobs.short []⟩).platform_targets = ["rp"] ∧
    (mergeRegulation ⟨["dp"], ["db"], Jobs.short ["dj"]⟩
      ⟨["rp"], [], Jobs.short []⟩).build_targets = ["db"] ∧
    (mergeRegulation ⟨["dp"], ["db"], Jobs.short ["dj"]⟩
      ⟨["rp"], [], Jobs.short []⟩).jobs = Jobs.short ["dj"] ∧
    effectiveDefault [⟨some ⟨["far"], [], Jobs.short []⟩, []⟩,
      ⟨some ⟨["near"], [], Jobs.short []⟩, []⟩, ⟨none, []⟩] =
      some ⟨["near"], [], Jobs.short []⟩ := by
  refine ⟨?_, ?_, ?_, ?_⟩
  · exact (c2_merge_idempotent_field_local.1 _ _).1 (by decide)
  · exact (c2_merge_idempotent_field_local.1 _ _).2.2.2.2.1 rfl
  · exact (c2_merge_idempotent_field_local.1 _ _).2.2.2.2.2 rfl
  · exact c2_merge_idempotent_field_local.2.2.2
      [⟨some ⟨["far"], [], Jobs.short []⟩, []⟩] [⟨none, []⟩]
      ⟨some ⟨["near"], [], Jobs.short []⟩, []⟩ _ rfl (by simp)

/-! ## Lemmas about the run loop -/

theorem runPackages_skip_missing (exec : RegulationCheck → Bool) :
    ∀ l : List (Option CustomsFile),
      runPackages false exec l = runPackages false exec (l.filter (fun o => o.isSome)) := by
  intro l
  induction l with
  | nil => rfl
  | cons o rest ih =>
    cases o with
    | none => simpa [runPackages] using ih
    | some f =>
      simp only [runPackages, List.filter_cons, Option.isSome_some, if_pos]
      cases hr : runRegs exec f.regulation with
      | mk t res =>
        cases res with
        | none => simp [ih]
        | some e => rfl

/-! ## Claim C8 -/

/-- Claim C8: when a non-workspace invocation resolves to exactly one
    unit and that unit has no customs file, the run stops with
    Error::CustomsMissing before any invocation; when operating
    workspace-wide, units without a customs file are skipped and the
    run behaves exactly as if only the units with a customs file were
    present. -/
theorem c8_missing_customs_policy :
    (∀ exec, runCustoms false exec [none] = ([], some RunErr.customsMissing)) ∧
    (∀ (exec : RegulationCheck → Bool) (pkgs : List (Option CustomsFile)),
      runCustoms true exec pkgs =
        runCustoms true exec (pkgs.filter (fun o => o.isSome))) := by
  refine ⟨fun exec => rfl, fun exec pkgs => ?_⟩
  unfold runCustoms
  simp only [Bool.not_true, Bool.and_false]
  exact runPackages_skip_missing exec pkgs

/-! ## Claim C9 -/

/-- Claim C9 is contradicted by the code: for a targeted single-unit
    invocation whose unit file has an empty regulation list after the
    merge, the run performs no invocation and terminates successfully
    instead of aborting with a user-facing error (the missing check is
    marked by TODO comments at lines 277 and 327 of main.rs). -/
theorem c9_empty_regulation_list_not_an_error :
    ∀ exec, runCustoms false exec [some ⟨none, []⟩] = ([], none) :=
  fun _ => rfl

/-! ## takeWhile and dropWhile helpers for the fail-fast argument -/

theorem takeWhile_eq_self_of_all {p : α → Bool} :
    ∀ {l : List α}, l.all p = true → l.takeWhile p = l := by
  intro l h
  induction l with
  | nil => rfl
  | cons a t ih =>
    simp only [List.all_cons, Bool.and_eq_true] at h
    simp [List.takeWhile_cons_of_pos h.1, ih h.2]

theorem dropWhile_eq_nil_of_all {p : α → Bool} :
    ∀ {l : List α}, l.all p = true → l.dropWhile p = [] := by
  intro l h
  induction l with
  | nil => rfl
  | cons a t ih =>
    simp only [List.all_cons, Bool.and_eq_true] at h
    simp [List.dropWhile_cons_of_pos h.1, ih h.2]

theorem takeWhile_append_of_all_false {p : α → Bool} :
    ∀ {l₁ : List α} (l₂ : List α), l₁.all p = false →
      (l₁ ++ l₂).takeWhile p = l₁.takeWhile p := by
  intro l₁
  induction l₁ with
  | nil => intro l₂ h; simp at h
  | cons a t ih =>
    intro l₂ h
    simp only [List.all_cons, Bool.and_eq_false_iff] at h
    cases hp : p a with
    | false => simp [List.takeWhile_cons_of_neg, hp]
    | true =>
      have ht : t.all p = false := by
        rcases h with h | h
        · rw [hp] at h; exact absurd h (by simp)
        · exact h
      simp [List.takeWhile_cons_of_pos hp, ih l₂ ht]

theorem dropWhile_append_of_all_false {p : α → Bool} :
    ∀ {l₁ : List α} (l₂ : List α), l₁.all p = false →
      (l₁ ++ l₂).dropWhile p = l₁.dropWhile p ++ l₂ := by
  intro l₁
  induction l₁ with
  | nil => intro l₂ h; simp at h
  | cons a t ih =>
    intro l₂ h
    simp only [List.all_cons, Bool.and_eq_false_iff] at h
    cases hp : p a with
    | false => simp [List.dropWhile_cons_of_neg, hp]
    | true =>
      have ht : t.all p = false := by
        rcases h with h | h
        · rw [hp] at h; exact absurd h (by simp)
        · exact h
      simp [List.dropWhile_cons_of_pos hp, ih l₂ ht]

theorem dropWhile_ne_nil_of_all_false {p : α → Bool} :
    ∀ {l : List α}, l.all p = false → l.dropWhile p ≠ [] := by
  intro l h
  induction l with
  | nil => simp at h
  | cons a t ih =>
    simp only [List.all_cons, Bool.and_eq_false_iff] at h
    cases hp : p a with
    | false => simp [List.dropWhile_cons_of_neg, hp]
    | true =>
      have ht : t.all p = false := by
        rcases h with h | h
        · rw [hp] at h; exact absurd h (by simp)
        · exact h
      simp [List.dropWhile_cons_of_pos hp, ih ht]

theorem take_one_append_of_ne_nil :
    ∀ {l₁ : List α} (l₂ : List α), l₁ ≠ [] → (l₁ ++ l₂).take 1 = l₁.take 1 := by
  intro l₁ l₂ h
  cases l₁ with
  | nil => exact absurd rfl h
  | cons a t => simp

/-! ## Characterization of the run loop -/

theorem runChecks_char (exec : RegulationCheck → Bool) :
    ∀ cs : List RegulationCheck,
      (∀ c ∈ cs, (buildTargetArg c.build_target).isSome = true) →
      runChecks exec cs =
        (cs.takeWhile exec ++ (cs.dropWhile exec).take 1,
         if cs.all exec then none else some RunErr.checkFailed) := by
  intro cs
  induction cs with
  | nil => intro _; rfl
  | cons c rest ih =>
    intro h
    obtain ⟨bta, hbta⟩ := Option.isSome_iff_exists.mp (h c (by simp))
    have hrest := ih (fun c hc => h c (by simp [hc]))
    cases hc : exec c with
    | true =>
      have h1 : exec c = true := hc
      simp [runChecks, hbta, hc, hrest, List.takeWhile_cons_of_pos h1,
        List.dropWhile_cons_of_pos h1]
    | false =>
      have h1 : ¬ exec c = true := by simp [hc]
      simp [runChecks, hbta, hc, List.takeWhile_cons_of_neg h1,
        List.dropWhile_cons_of_neg h1]

theorem runRegs_char (exec : RegulationCheck → Bool) :
    ∀ regs : List Regulation,
      (∀ r ∈ regs, (r.expand).isSome = true ∧
        ∀ c ∈ (r.expand).getD [], (buildTargetArg c.build_target).isSome = true) →
      runRegs exec regs =
        (let U := regs.flatMap (fun r => (r.expand).getD [])
         (U.takeWhile exec ++ (U.dropWhile exec).take 1,
          if U.all exec then none else some RunErr.checkFailed)) := by
  intro regs
  induction regs with
  | nil => intro _; rfl
  | cons r rest ih =>
    intro h
    obtain ⟨cs, hcs⟩ := Option.isSome_iff_exists.mp (h r (by simp)).1
    have hvalid : ∀ c ∈ cs, (buildTargetArg c.build_target).isSome = true := by
      have := (h r (by simp)).2
      rwa [hcs] at this
    have hrest := ih (fun r hr => h r (by simp [hr]))
    simp only [runRegs, hcs, runChecks_char exec cs hvalid]
    simp only [List.flatMap_cons, hcs, Option.getD_some]
    cases hall : cs.all exec with
    | true =>
      simp only [hall, if_pos, hrest]
      rw [takeWhile_eq_self_of_all hall, dropWhile_eq_nil_of_all hall,
        List.takeWhile_append_of_pos (List.all_eq_true.mp hall),
        List.dropWhile_append_of_pos (List.all_eq_true.mp hall),
        List.all_append, hall, Bool.true_and]
      simp
    | false =>
      rw [takeWhile_append_of_all_false _ hall, dropWhile_append_of_all_false _ hall,
        take_one_append_of_ne_nil _ (dropWhile_ne_nil_of_all_false hall),
        List.all_append, hall, Bool.false_and]
      simp [hall]

theorem runPackages_char (st : Bool) (exec : RegulationCheck → Bool) :
    ∀ files : List CustomsFile, (∀ f ∈ files, regsValid f) →
      runPackages st exec (files.map some) =
        ((unitsOf files).takeWhile exec ++ ((unitsOf files).dropWhile exec).take 1,
         if (unitsOf files).all exec then none else some RunErr.checkFailed) := by
  intro files
  induction files with
  | nil => intro _; rfl
  | cons f rest ih =>
    intro h
    have hf : ∀ r ∈ f.regulation, (r.expand).isSome = true ∧
        ∀ c ∈ (r.expand).getD [], (buildTargetArg c.build_target).isSome = true :=
      h f (by simp)
    have hrest := ih (fun g hg => h g (by simp [hg]))
    simp only [List.map_cons, runPackages, runRegs_char exec f.regulation hf]
    have hunits : unitsOf (f :: rest) =
        f.regulation.flatMap (fun r => (r.expand).getD []) ++ unitsOf rest := by
      simp [unitsOf]
    rw [hunits]
    cases hall : (f.regulation.flatMap (fun r => (r.expand).getD [])).all exec with
    | true =>
      simp only [hall, if_pos, hrest]
      rw [takeWhile_eq_self_of_all hall, dropWhile_eq_nil_of_all hall,
        List.takeWhile_append_of_pos (List.all_eq_true.mp hall),
        List.dropWhile_append_of_pos (List.all_eq_true.mp hall),
        List.all_append, hall, Bool.true_and]
      simp
    | false =>
      rw [takeWhile_append_of_all_false _ hall, dropWhile_append_of_all_false _ hall,
        take_one_append_of_ne_nil _ (dropWhile_ne_nil_of_all_false hall),
        List.all_append, hall, Bool.false_and]
      simp [hall]

/-! ## Claim C10 -/

/-- Claim C10: execution is fail-fast.  For any workspace flag and
    any sequence of unit files whose regulations all expand and carry
    recognized build targets, the executed trace is exactly the
    longest prefix of the full execution-unit sequence on which the
    external tool succeeds, followed by the first failing unit when
    one exists; in that case the run surfaces failure and no later
    ExecutionUnit — of the same or of any later ProjectUnit — is
    attempted, and when every unit exits with status zero the whole
    sequence runs and the run succeeds. -/
theorem c10_fail_fast (ws : Bool) (exec : RegulationCheck → Bool)
    (files : List CustomsFile) (hv : ∀ f ∈ files, regsValid f) :
    runCustoms ws exec (files.map some) =
      ((unitsOf files).takeWhile exec ++ ((unitsOf files).dropWhile exec).take 1,
       if (unitsOf files).all exec then none else some RunErr.checkFailed) := by
  unfold runCustoms
  exact runPackages_char _ exec files hv

/-- Witness for C10: one unit file with jobs a, b, c where the
    external tool fails exactly on job b: jobs a and b are attempted,
    job c is not, and the run fails. -/
theorem c10_witness :
    runCustoms false (fun rc => decide (rc.job.name ≠ "b"))
      ([(⟨none, [⟨["p"], ["lib"], Jobs.short ["a", "b", "c"]⟩]⟩ : CustomsFile)].map some) =
      ([⟨"p", "lib", ⟨"a", []⟩⟩, ⟨"p", "lib", ⟨"b", []⟩⟩], some RunErr.checkFailed) := by
  rw [c10_fail_fast false (fun rc => decide (rc.job.name ≠ "b"))
    [⟨none, [⟨["p"], ["lib"], Jobs.short ["a", "b", "c"]⟩]⟩] (by decide)]
  decide

/-! ## Lemmas about the max_by fold of find_current_package -/

theorem foldl_maxByStep_some :
    ∀ (l : List (Package × Nat)) (a : Package × Nat),
      ∃ x, l.foldl maxByStep (some a) = some x ∧ (x = a ∨ x ∈ l) ∧
        a.2 ≤ x.2 ∧ ∀ y ∈ l, y.2 ≤ x.2 := by
  intro l
  induction l with
  | nil => exact fun a => ⟨a, rfl, Or.inl rfl, Nat.le_refl _, by simp⟩
  | cons b t ih =>
    intro a
    simp only [List.foldl_cons]
    by_cases hab : a.2 > b.2
    · obtain ⟨x, hx, hmem, hge, hall⟩ := ih a
      refine ⟨x, by simpa [maxByStep, hab] using hx, ?_, hge, ?_⟩
      · rcases hmem with h | h
        · exact Or.inl h
        · exact Or.inr (by simp [h])
      · intro y hy
        rcases List.mem_cons.mp hy with rfl | h
        · exact Nat.le_trans (Nat.le_of_lt hab) hge
        · exact hall y h
    · obtain ⟨x, hx, hmem, hge, hall⟩ := ih b
      refine ⟨x, by simpa [maxByStep, hab] using hx, ?_, ?_, ?_⟩
      · rcases hmem with h | h
        · exact Or.inr (by simp [h])
        · exact Or.inr (by simp [h])
      · exact Nat.le_trans (Nat.le_of_not_lt hab) hge
      · intro y hy
        rcases List.mem_cons.mp hy with rfl | h
        · exact hge
        · exact hall y h

theorem foldl_maxByStep_none (l : List (Package × Nat)) :
    ∃ r, l.foldl maxByStep none = r ∧
      (l = [] → r = none) ∧
      ∀ x, r = some x → x ∈ l ∧ ∀ y ∈ l, y.2 ≤ x.2 := by
  cases l with
  | nil => exact ⟨none, rfl, fun _ => rfl, by simp⟩
  | cons b t =>
    obtain ⟨x, hx, hmem, hge, hall⟩ := foldl_maxByStep_some t b
    refine ⟨some x, by simpa [maxByStep] using hx, by simp, ?_⟩
    rintro y hy
    cases hy
    constructor
    · rcases hmem with h | h
      · simp [h]
      · simp [h]
    · intro y hy
      rcases List.mem_cons.mp hy with rfl | h
      · exact hge
      · exact hall y h

/-! ## Claim C3 -/

/-- Claim C3: for a non-workspace invocation the processed units are:
    the single workspace-member unit whose root directory is the
    longest positive-length prefix of the working location, when such
    a member exists and its match is strictly longer than every other
    member match; and every workspace member (whole-workspace
    fallback) when no member root has a positive-length match. -/
theorem c3_longest_prefix_resolution :
    (∀ (md : Metadata) (cwd : String),
      (∀ p ∈ md.packages, p.id ∈ md.workspace_members → matchLen cwd p = 0) →
      packages_to_inspect md cwd false = md.workspace_packages) ∧
    (∀ (md : Metadata) (cwd : String) (u : Package),
      u ∈ md.packages → u.id ∈ md.workspace_members → 0 < matchLen cwd u →
      (∀ q ∈ md.packages, q.id ∈ md.workspace_members → q ≠ u →
        matchLen cwd q < matchLen cwd u) →
      packages_to_inspect md cwd false = [u]) := by
  constructor
  · intro md cwd hzero
    unfold packages_to_inspect find_current_package
    simp only [Bool.false_eq_true, if_false]
    obtain ⟨r, hr, hnil, hsome⟩ := foldl_maxByStep_none
      ((md.packages.filter
        (fun p => md.workspace_members.any (fun i => decide (i = p.id)))).map
        (fun p => (p, matchLen cwd p)))
    rw [hr]
    cases r with
    | none => rfl
    | some x =>
      obtain ⟨hmem, _⟩ := hsome x rfl
      obtain ⟨q, hq, hfq⟩ := List.mem_map.mp hmem
      obtain ⟨hqpkgs, hqmem⟩ := List.mem_filter.mp hq
      have hqid : q.id ∈ md.workspace_members := by
        obtain ⟨i, hi, hiq⟩ := List.any_eq_true.mp hqmem
        exact (of_decide_eq_true hiq) ▸ hi
      have hx2 : x.2 = 0 := by
        rw [← hfq]
        exact hzero q hqpkgs hqid
      show (match (if 0 < x.2 then some x.1 else none : Option Package) with
            | some p => [p]
            | none => md.workspace_packages) = md.workspace_packages
      rw [hx2]
      simp
  · intro md cwd u hu humem hupos hmax
    unfold packages_to_inspect find_current_package
    simp only [Bool.false_eq_true, if_false]
    have huf : u ∈ md.packages.filter
        (fun p => md.workspace_members.any (fun i => decide (i = p.id))) := by
      refine List.mem_filter.mpr ⟨hu, ?_⟩
      exact List.any_eq_true.mpr ⟨u.id, humem, by simp⟩
    have hus : (u, matchLen cwd u) ∈ (md.packages.filter
        (fun p => md.workspace_members.any (fun i => decide (i = p.id)))).map
        (fun p => (p, matchLen cwd p)) := List.mem_map_of_mem _ huf
    obtain ⟨r, hr, _, hsome⟩ := foldl_maxByStep_none
      ((md.packages.filter
        (fun p => md.workspace_members.any (fun i => decide (i = p.id)))).map
        (fun p => (p, matchLen cwd p)))
    rw [hr]
    cases r with
    | none =>
      exfalso
      cases hl : (md.packages.filter
          (fun p => md.workspace_members.any (fun i => decide (i = p.id)))).map
          (fun p => (p, matchLen cwd p)) with
      | nil => rw [hl] at hus; cases hus
      | cons b t =>
        rw [hl] at hr
        obtain ⟨x, hx, _, _, _⟩ := foldl_maxByStep_some t b
        rw [show List.foldl maxByStep none (b :: t) = List.foldl maxByStep (some b) t
          from rfl, hx] at hr
        cases hr
    | some x =>
      obtain ⟨hmem, hge⟩ := hsome x rfl
      obtain ⟨q, hq, hfq⟩ := List.mem_map.mp hmem
      obtain ⟨hqpkgs, hqmem⟩ := List.mem_filter.mp hq
      have hqid : q.id ∈ md.workspace_members := by
        obtain ⟨i, hi, hiq⟩ := List.any_eq_true.mp hqmem
        exact (of_decide_eq_true hiq) ▸ hi
      have hqu : q = u := by
        by_contra hne
        have hlt := hmax q hqpkgs hqid hne
        have hle := hge (u, matchLen cwd u) hus
        rw [← hfq] at hle
        exact absurd (Nat.lt_of_le_of_lt hle hlt) (Nat.lt_irrefl _)
      subst hqu
      have hx : x = (q, matchLen cwd q) := hfq.symm
      subst hx
      show (match (if 0 < matchLen cwd q then some q else none : Option Package) with
            | some p => [p]
            | none => md.workspace_packages) = [q]
      rw [if_pos hupos]

/-- Witness for C3: with nested member roots /ws and /ws/pkg and
    working location /ws/pkg/src, the invocation resolves to the
    /ws/pkg package alone, not to /ws. -/
theorem c3_witness :
    packages_to_inspect
      ⟨[⟨"ws", ["ws", "Cargo.toml"]⟩, ⟨"pkg", ["ws", "pkg", "Cargo.toml"]⟩],
       ["ws", "pkg"], ["ws"]⟩ "/ws/pkg/src" false =
      [⟨"pkg", ["ws", "pkg", "Cargo.toml"]⟩] := by
  apply c3_longest_prefix_resolution.2
  · decide
  · decide
  · decide
  · decide

/-! ## Lemmas about the ancestor walk of load_customs -/

theorem ancestorsList_cons_eq (l : List String) (h : l ≠ []) :
    ancestorsList l = l :: ancestorsList l.dropLast := by
  cases l with
  | nil => exact absurd rfl h
  | cons a t => simp [ancestorsList]

theorem append_ne_of_ne_nil (root rel : List String) (h : rel ≠ []) :
    root ++ rel ≠ root := by
  intro he
  have hlen := congrArg List.length he
  rw [List.length_append] at hlen
  have hz : rel.length = 0 := by omega
  exact h (List.length_eq_zero.mp hz)

theorem dropLast_take_succ (l : List α) (k : Nat) (h : k + 1 ≤ l.length) :
    (l.take (k + 1)).dropLast = l.take k := by
  rw [List.dropLast_eq_take, List.length_take, List.take_take]
  congr 1
  omega

theorem ancestors_takeWhile_char (root : List String) :
    ∀ (n : Nat) (rel : List String), rel.length = n → rel ≠ [] →
      (ancestorsList (root ++ rel)).takeWhile (fun e => decide (e ≠ root)) =
        ((List.range rel.length).reverse).map (fun i => root ++ rel.take (i + 1)) := by
  intro n
  induction n with
  | zero => intro rel h0 hne; exact absurd (List.length_eq_zero.mp h0) hne
  | succ m ih =>
    intro rel hlen hne
    rw [ancestorsList_cons_eq (root ++ rel)
      (fun hh => hne (List.append_eq_nil.mp hh).2)]
    rw [List.takeWhile_cons_of_pos
      (by simp only [decide_eq_true_eq]; exact append_ne_of_ne_nil root rel hne)]
    rw [List.dropLast_append_of_ne_nil root hne]
    by_cases hdl : rel.dropLast = []
    · rw [hdl, List.append_nil]
      have hz : (ancestorsList root).takeWhile (fun e => decide (e ≠ root)) = [] := by
        cases root with
        | nil => simp [ancestorsList]
        | cons b s =>
          rw [ancestorsList_cons_eq (b :: s) (by simp)]
          rw [List.takeWhile_cons_of_neg (by simp)]
      rw [hz]
      have hnz : rel.length ≠ 0 := fun h0 => hne (List.length_eq_zero.mp h0)
      have hd : rel.dropLast.length = rel.length - 1 := List.length_dropLast rel
      rw [hdl] at hd
      simp only [List.length_nil] at hd
      have h1 : rel.length = 1 := by omega
      rw [h1]
      have ht : rel.take 1 = rel := List.take_of_length_le (by omega)
      rw [show List.range 1 = [0] from rfl]
      simp [ht]
    · have hmlen : rel.dropLast.length = m := by
        have hd := List.length_dropLast rel
        omega
      rw [ih rel.dropLast hmlen hdl, hmlen, hlen, List.range_succ, List.reverse_append]
      simp only [List.reverse_cons, List.reverse_nil, List.nil_append, List.singleton_append,
        List.map_cons]
      congr 1
      · rw [List.take_of_length_le (show rel.length ≤ m + 1 by omega)]
      · apply List.map_congr_left
        intro i hi
        have him : i < m := by
          rw [List.mem_reverse] at hi
          exact List.mem_range.mp hi
        congr 1
        rw [List.dropLast_eq_take, List.take_take]
        congr 1
        omega

/-! ## Claim C4 -/

/-- Claim C4 (amended): the merger collects the policy files of the
    unit directory and of each ancestor directory up to and including
    the workspace root — the workspace root directory does contribute
    a policy file — and processes them in root-to-unit order: for a
    unit at relDirs below the root, the candidate paths in processing
    order are root/Customs.toml, then each intermediate directory,
    down to the unit directory, and the files actually read are
    exactly the ones of those candidates the filesystem holds, in the
    same order. -/
theorem c4_collects_up_to_root (root relDirs : List String) :
    (customsPaths (root ++ relDirs ++ ["Cargo.toml"]) root).reverse =
      (List.range (relDirs.length + 1)).map
        (fun i => root ++ relDirs.take i ++ [customsFileName]) ∧
    root ++ [customsFileName] ∈ customsPaths (root ++ relDirs ++ ["Cargo.toml"]) root ∧
    ∀ fsys : List String → Option CustomsFile,
      ((customsPaths (root ++ relDirs ++ ["Cargo.toml"]) root).filterMap fsys).reverse =
        ((List.range (relDirs.length + 1)).map
          (fun i => root ++ relDirs.take i ++ [customsFileName])).filterMap fsys := by
  have hrel : relDirs ++ ["Cargo.toml"] ≠ [] := by simp
  have hassoc : root ++ relDirs ++ ["Cargo.toml"] = root ++ (relDirs ++ ["Cargo.toml"]) :=
    List.append_assoc root relDirs ["Cargo.toml"]
  have hmain : (customsPaths (root ++ relDirs ++ ["Cargo.toml"]) root).reverse =
      (List.range (relDirs.length + 1)).map
        (fun i => root ++ relDirs.take i ++ [customsFileName]) := by
    unfold customsPaths
    rw [hassoc, ancestors_takeWhile_char root (relDirs ++ ["Cargo.toml"]).length
      (relDirs ++ ["Cargo.toml"]) rfl hrel]
    rw [List.map_map, List.map_reverse, List.reverse_reverse]
    have hn : (relDirs ++ ["Cargo.toml"]).length = relDirs.length + 1 := by simp
    rw [hn]
    apply List.map_congr_left
    intro i hi
    have him : i < relDirs.length + 1 := List.mem_range.mp hi
    show (root ++ (relDirs ++ ["Cargo.toml"]).take (i + 1)).dropLast ++ [customsFileName]
        = root ++ relDirs.take i ++ [customsFileName]
    have hne2 : (relDirs ++ ["Cargo.toml"]).take (i + 1) ≠ [] := by
      intro h
      have hlen2 := congrArg List.length h
      rw [List.length_take, List.length_append] at hlen2
      simp only [List.length_nil, List.length_cons] at hlen2
      omega
    rw [List.dropLast_append_of_ne_nil root hne2]
    rw [dropLast_take_succ _ i (by rw [List.length_append]; simp; omega)]
    rw [List.take_append_of_le_length (by omega)]
  refine ⟨hmain, ?_, ?_⟩
  · rw [← List.mem_reverse, hmain]
    refine List.mem_map.mpr ⟨0, List.mem_range.mpr (by omega), ?_⟩
    simp
  · intro fsys
    rw [← List.filterMap_reverse, hmain]

/-- Counterexample to C4 as stated: for a unit /ws/pkg in a workspace
    rooted at /ws, the collected candidate files are the Customs.toml
    of /ws/pkg and of /ws itself — the collection the claim describes
    (strictly below the workspace root) misses /ws/Customs.toml, which
    the code does collect. -/
theorem c4_counterexample :
    (customsPaths ["ws", "pkg", "Cargo.toml"] ["ws"]).reverse ≠
      specCustomsPathsBelowRoot ["ws"] ["pkg"] ∧
    ["ws", "Customs.toml"] ∈ customsPaths ["ws", "pkg", "Cargo.toml"] ["ws"] := by
  have h1 : customsPaths ["ws", "pkg", "Cargo.toml"] ["ws"] =
      [["ws", "pkg", "Customs.toml"], ["ws", "Customs.toml"]] := by
    simp [customsPaths, ancestorsList, customsFileName]
  rw [h1]
  constructor
  · decide
  · decide

end CargoCustoms
